import Mathlib

/-!
Shallow embedding of the snake-game backend
(`backend/game-service/internal/game/game.go`, the `main` package of the
backend service, and the SQLite leaderboard), together with proofs about
its tick transition, direction handling, food placement and score store.
-/

namespace Snake

/-- Movement direction of the snake (`models.Direction`). -/
inductive Direction where
  | up
  | down
  | left
  | right
deriving DecidableEq

/-- The geometric opposite of a direction. -/
def Direction.opposite : Direction → Direction
  | .up => .down
  | .down => .up
  | .left => .right
  | .right => .left

/-- A position on the game grid (`models.Point`), integer components. -/
structure Point where
  x : Int
  y : Int
deriving DecidableEq

/-- Game configuration (`models.GameConfig`); the fields read by the game
logic (`CellSize` and `Speed` are not consulted by the session transition). -/
structure GameConfig where
  gridSize : Int
  initialX : Int
  initialY : Int
deriving DecidableEq

/-- Session state of `internal/game` (`models.GameState`). -/
structure GameState where
  snake : List Point
  food : Point
  score : Int
  gameOver : Bool
  direction : Direction
deriving DecidableEq

/-- UTF-8 byte encoding of a code point, as produced by Go when it converts
an integer to a string. -/
def utf8Bytes (c : Nat) : List Nat :=
  if c < 0x80 then [c]
  else if c < 0x800 then [0xC0 + c / 0x40, 0x80 + c % 0x40]
  else if c < 0x10000 then
    [0xE0 + c / 0x1000, 0x80 + c / 0x40 % 0x40, 0x80 + c % 0x40]
  else
    [0xF0 + c / 0x40000, 0x80 + c / 0x1000 % 0x40, 0x80 + c / 0x40 % 0x40,
      0x80 + c % 0x40]

/-- Go `string(v)` for an integer `v`: the UTF-8 bytes of the code point `v`,
with invalid code points (negative, surrogates, above U+10FFFF) replaced by
U+FFFD. -/
def goStringOfInt (v : Int) : List Nat :=
  if (0 ≤ v ∧ v < 0xD800) ∨ (0xDFFF < v ∧ v ≤ 0x10FFFF) then utf8Bytes v.toNat
  else utf8Bytes 0xFFFD

/-- Function `pointKey` from `internal/game/game.go`:
`string(p.X) + "," + string(p.Y)`, modelled as the byte sequence of the
resulting Go string (44 is the comma byte). -/
def pointKey (p : Point) : List Nat :=
  goStringOfInt p.x ++ 44 :: goStringOfInt p.y

/-- One run of the rejection-sampling loop of `generateFood` in
`internal/game/game.go`. `draws` is the stream of candidate cells produced
by `rand.Intn`; the loop keeps drawing until a candidate whose `pointKey` is
absent from the occupancy map is found. A run in which the loop never exits
is modelled by `none` (the source has no fallback and would spin forever). -/
def genFood (snake : List Point) : List Point → Option Point
  | [] => none
  | d :: rest =>
    if pointKey d ∈ snake.map pointKey then genFood snake rest
    else some d

/-- Function `checkCollision` from `internal/game/game.go`: wall test against
`[0, gridSize)` on both axes, then a scan of the snake body. -/
def checkCollision (cfg : GameConfig) (snake : List Point) (p : Point) : Bool :=
  if p.x < 0 ∨ cfg.gridSize ≤ p.x ∨ p.y < 0 ∨ cfg.gridSize ≤ p.y then true
  else decide (p ∈ snake)

/-- The head shift performed by `Update` for each committed direction. -/
def nextHead (d : Direction) (p : Point) : Point :=
  match d with
  | .up => ⟨p.x, p.y - 1⟩
  | .down => ⟨p.x, p.y + 1⟩
  | .left => ⟨p.x - 1, p.y⟩
  | .right => ⟨p.x + 1, p.y⟩

/-- Method `Update` from `internal/game/game.go`, as the state transform of
its critical-section algorithm: the food branch is modelled as if the
`generateFood` call it makes could complete, which in the source it cannot —
`Update` already holds `g.mutex` and `generateFood` re-locks that same
non-reentrant `sync.RWMutex`; see `updateLocked` for the run semantics in
which that branch deadlocks. `draws` feeds the food generator; `none` marks
a call that does not complete (index panic on an empty snake, or the food
loop never exits). -/
def update (cfg : GameConfig) (s : GameState) (draws : List Point) :
    Option GameState :=
  if s.gameOver then some s
  else
    match s.snake with
    | [] => none
    | head :: _ =>
      let newHead := nextHead s.direction head
      if checkCollision cfg s.snake newHead then some { s with gameOver := true }
      else
        let grown := newHead :: s.snake
        if newHead = s.food then
          match genFood grown draws with
          | some f => some { s with snake := grown, score := s.score + 1, food := f }
          | none => none
        else some { s with snake := grown.dropLast }

/-- Method `Update` from `internal/game/game.go` as actually run under its
mutex. `Update` takes `g.mutex.Lock()` for the whole call; on a food-eating
tick it calls `generateFood`, which immediately locks the same
non-reentrant `sync.RWMutex` again, so that call never returns: no food is
placed and no post-tick state ever becomes observable (modelled `none`).
The collision and plain-move branches never re-enter the lock and agree
with `update`. -/
def updateLocked (cfg : GameConfig) (s : GameState) : Option GameState :=
  if s.gameOver then some s
  else
    match s.snake with
    | [] => none
    | head :: _ =>
      let newHead := nextHead s.direction head
      if checkCollision cfg s.snake newHead then some { s with gameOver := true }
      else if newHead = s.food then none
      else some { s with snake := (newHead :: s.snake).dropLast }

/-- Method `SetDirection` from `internal/game/game.go`: the four-way switch that
refuses a turn onto the opposite of the current committed direction.
The source performs no terminal check. -/
def setDirection (s : GameState) (dir : Direction) : GameState :=
  match dir with
  | .up => if s.direction ≠ .down then { s with direction := dir } else s
  | .down => if s.direction ≠ .up then { s with direction := dir } else s
  | .left => if s.direction ≠ .right then { s with direction := dir } else s
  | .right => if s.direction ≠ .left then { s with direction := dir } else s

/-- Constructor `NewGame` from `internal/game/game.go`: single starting
cell, direction RIGHT, score 0, not terminal, then food placed by the
rejection-sampling generator against that snake (`NewGame` calls
`generateFood` without holding the mutex, so it completes). `Reset` builds
the same state but calls `generateFood` while already holding `g.mutex`
and deadlocks; `Reach` below still treats a reset as completing, which only
adds states and leaves the invariants proved about `Reach` valid for the
program. -/
def newGame (cfg : GameConfig) (draws : List Point) : Option GameState :=
  match genFood [⟨cfg.initialX, cfg.initialY⟩] draws with
  | some f =>
    some { snake := [⟨cfg.initialX, cfg.initialY⟩], food := f, score := 0,
           gameOver := false, direction := .right }
  | none => none

/-- Session states reachable in `internal/game` from creation by any
interleaving of ticks, direction changes and resets. -/
inductive Reach (cfg : GameConfig) : GameState → Prop where
  | init (draws : List Point) (s : GameState) :
      newGame cfg draws = some s → Reach cfg s
  | tick (s t : GameState) (draws : List Point) :
      Reach cfg s → update cfg s draws = some t → Reach cfg t
  | dir (s : GameState) (d : Direction) :
      Reach cfg s → Reach cfg (setDirection s d)
  | reset (s t : GameState) (draws : List Point) :
      Reach cfg s → newGame cfg draws = some t → Reach cfg t

/-- Constant `GRID_SIZE` of the backend `main` package. -/
def GRID_SIZE : Int := 20

/-- Constant `MAX_ENTRIES` of the backend `main` package (top-N retention). -/
def MAX_ENTRIES : Nat := 10

/-- Session state of the backend `main` package (`GameState` there): the
committed direction is a raw string. -/
structure SState where
  snake : List Point
  food : Point
  score : Int
  gameOver : Bool
  direction : String
deriving DecidableEq

/-- Function `generateFood` from the backend `main` package: a fresh draw
`Point{rand.Intn(GRID_SIZE), rand.Intn(GRID_SIZE)}` with no occupancy
check; the random draw (whose components lie in `[0, GRID_SIZE)`) is passed
in explicitly. -/
def serverGenerateFood (draw : Point) : Point := draw

/-- Method `getNextPosition` from the backend `main` package; unknown direction
strings leave the position unchanged (the `default` arm). -/
def getNextPosition (dir : String) (current : Point) : Point :=
  if dir = "UP" then ⟨current.x, current.y - 1⟩
  else if dir = "DOWN" then ⟨current.x, current.y + 1⟩
  else if dir = "LEFT" then ⟨current.x - 1, current.y⟩
  else if dir = "RIGHT" then ⟨current.x + 1, current.y⟩
  else current

/-- Method `isCollision` from the backend `main` package. -/
def isCollision (snake : List Point) (pos : Point) : Bool :=
  if pos.x < 0 ∨ GRID_SIZE ≤ pos.x ∨ pos.y < 0 ∨ GRID_SIZE ≤ pos.y then true
  else snake.any fun seg => decide (pos.x = seg.x ∧ pos.y = seg.y)

/-- Method `update` from the backend `main` package: on food, score is raised and
a fresh unconstrained draw becomes the food (no tail removal); otherwise
the tail is removed; in both cases the new head is then prepended. -/
def serverUpdate (s : SState) (draw : Point) : Option SState :=
  if s.gameOver then some s
  else
    match s.snake with
    | [] => none
    | head :: _ =>
      let newHead := getNextPosition s.direction head
      if isCollision s.snake newHead then some { s with gameOver := true }
      else if newHead.x = s.food.x ∧ newHead.y = s.food.y then
        some { s with
                score := s.score + 1
                food := serverGenerateFood draw
                snake := newHead :: s.snake }
      else some { s with snake := newHead :: s.snake.dropLast }

/-- Method `handleDirection` from the backend `main` package: no-op when the game
is over, otherwise the turn is applied unless it is the reverse of the
current committed direction (unknown strings count as valid turns). -/
def handleDirection (s : SState) (direction : String) : SState :=
  if s.gameOver then s
  else
    let isValidTurn : Bool :=
      if direction = "UP" then s.direction ≠ "DOWN"
      else if direction = "DOWN" then s.direction ≠ "UP"
      else if direction = "LEFT" then s.direction ≠ "RIGHT"
      else if direction = "RIGHT" then s.direction ≠ "LEFT"
      else true
    if isValidTurn then { s with direction := direction } else s

/-- A leaderboard row (`ScoreEntry` / the `scores` table); `date` is an
abstract timestamp. -/
structure ScoreEntry where
  playerName : String
  score : Int
  date : Nat
deriving DecidableEq

/-- The SQL ordering `ORDER BY score DESC` on rows. -/
def scoreGE (a b : ScoreEntry) : Prop := b.score ≤ a.score

instance : DecidableRel scoreGE := fun a b => Int.decLe b.score a.score

instance : IsTotal ScoreEntry scoreGE := ⟨fun a b => le_total b.score a.score⟩

instance : IsTrans ScoreEntry scoreGE := ⟨fun _ _ _ h1 h2 => le_trans h2 h1⟩

/-- Method `AddScore` from the backend `main` package: insert the row, then delete
every row outside the first `MAX_ENTRIES` of the score-descending order.
The store is represented by that score-descending row order; SQLite leaves
the relative order of equal scores unspecified, and the model places a
newly inserted row before the older rows of equal score. -/
def addScore (store : List ScoreEntry) (e : ScoreEntry) : List ScoreEntry :=
  (List.orderedInsert scoreGE e store).take MAX_ENTRIES

/-- Method `GetScores` from the backend `main` package:
`SELECT ... ORDER BY score DESC LIMIT MAX_ENTRIES`. -/
def getScores (store : List ScoreEntry) : List ScoreEntry :=
  (List.insertionSort scoreGE store).take MAX_ENTRIES

/-- The score-descending order of a whole submission history, built by the
same insertion discipline as `addScore` but without trimming. -/
def sortAllScores (l : List ScoreEntry) : List ScoreEntry :=
  l.foldl (fun acc e => List.orderedInsert scoreGE e acc) []

lemma checkCollision_eq_true (cfg : GameConfig) (snake : List Point) (p : Point)
    (h : p.x < 0 ∨ cfg.gridSize ≤ p.x ∨ p.y < 0 ∨ cfg.gridSize ≤ p.y ∨
      p ∈ snake) : checkCollision cfg snake p = true := by
  unfold checkCollision
  split
  · rfl
  · rename_i hwall
    have hmem : p ∈ snake := by
      rcases h with h | h | h | h | h
      · exact absurd (Or.inl h) hwall
      · exact absurd (Or.inr (Or.inl h)) hwall
      · exact absurd (Or.inr (Or.inr (Or.inl h))) hwall
      · exact absurd (Or.inr (Or.inr (Or.inr h))) hwall
      · exact h
    simpa using hmem

lemma checkCollision_eq_false_not_mem (cfg : GameConfig) (snake : List Point)
    (p : Point) (h : checkCollision cfg snake p = false) : p ∉ snake := by
  unfold checkCollision at h
  split at h
  · simp at h
  · simpa using h

/-- C1: on a non-terminal tick whose computed new head is out of bounds on
either axis or equals a coordinate of the current snake, `Update` sets the
terminal flag and leaves snake, score, food and direction unchanged. -/
theorem update_collision_terminal (cfg : GameConfig) (s : GameState)
    (hd : Point) (tl draws : List Point)
    (hgo : s.gameOver = false) (hsnake : s.snake = hd :: tl)
    (hcoll : (nextHead s.direction hd).x < 0 ∨
      cfg.gridSize ≤ (nextHead s.direction hd).x ∨
      (nextHead s.direction hd).y < 0 ∨
      cfg.gridSize ≤ (nextHead s.direction hd).y ∨
      nextHead s.direction hd ∈ s.snake) :
    ∃ t, update cfg s draws = some t ∧ t.gameOver = true ∧
      t.snake = s.snake ∧ t.score = s.score ∧ t.food = s.food ∧
      t.direction = s.direction := by
  refine ⟨{ s with gameOver := true }, ?_, rfl, rfl, rfl, rfl, rfl⟩
  have hc := checkCollision_eq_true cfg s.snake (nextHead s.direction hd) hcoll
  unfold update
  rw [hgo]
  simp only [Bool.false_eq_true, if_false]
  rw [hsnake]
  rw [hsnake] at hc
  simp [hc]

/-- Witness for C1 at a concrete out-of-bounds tick. -/
theorem update_collision_terminal_witness :
    ∃ t, update ⟨20, 10, 10⟩ ⟨[⟨0, 5⟩], ⟨3, 3⟩, 0, false, .left⟩ [] = some t ∧
      t.gameOver = true ∧ t.snake = [⟨0, 5⟩] ∧ t.score = 0 ∧
      t.food = ⟨3, 3⟩ ∧ t.direction = .left :=
  update_collision_terminal ⟨20, 10, 10⟩ ⟨[⟨0, 5⟩], ⟨3, 3⟩, 0, false, .left⟩
    ⟨0, 5⟩ [] [] rfl rfl (by decide)

/-- C2: the claimed food-tick contract is met by neither backend. In
`internal/game`, a non-terminal, non-colliding tick whose new head equals
the food never completes: `Update` holds the mutex and `generateFood`
re-locks it, so under the run semantics `updateLocked` the tick yields no
post-tick state at all — no score increase, no growth and no new food are
ever observable. In the backend `main` package the tick completes, but the
new food is drawn without excluding the snake and here lands exactly on the
post-move snake. -/
theorem update_food_tick_no_completion :
    (∀ (cfg : GameConfig) (s : GameState) (hd : Point) (tl : List Point),
      s.gameOver = false → s.snake = hd :: tl →
      checkCollision cfg s.snake (nextHead s.direction hd) = false →
      nextHead s.direction hd = s.food →
      updateLocked cfg s = none) ∧
    (serverUpdate ⟨[⟨10, 10⟩], ⟨11, 10⟩, 0, false, "RIGHT"⟩ ⟨11, 10⟩ =
        some ⟨[⟨11, 10⟩, ⟨10, 10⟩], ⟨11, 10⟩, 1, false, "RIGHT"⟩ ∧
      (⟨11, 10⟩ : Point) ∈ [(⟨11, 10⟩ : Point), ⟨10, 10⟩] ∧
      0 ≤ (11 : Int) ∧ (11 : Int) < GRID_SIZE ∧ 0 ≤ (10 : Int) ∧
        (10 : Int) < GRID_SIZE) := by
  constructor
  · intro cfg s hd tl hgo hsnake hnc hfood
    unfold updateLocked
    rw [hgo]
    simp only [Bool.false_eq_true, if_false]
    rw [hsnake]
    rw [hsnake] at hnc
    rw [hfood] at hnc
    simp [hnc, hfood]
  · decide

/-- Witness for C2 at a concrete food-adjacent tick that never completes. -/
theorem update_food_tick_no_completion_witness :
    updateLocked ⟨20, 10, 10⟩ ⟨[⟨10, 10⟩], ⟨11, 10⟩, 0, false, .right⟩ =
      none :=
  update_food_tick_no_completion.1 ⟨20, 10, 10⟩
    ⟨[⟨10, 10⟩], ⟨11, 10⟩, 0, false, .right⟩ ⟨10, 10⟩ [] rfl rfl (by decide)
    (by decide)

lemma dropLast_toFinset_eq (l : List Point) (lst : Point)
    (hnd : l.Nodup) (hl : l.getLast? = some lst) :
    l.dropLast.toFinset = l.toFinset.erase lst := by
  have hne : l ≠ [] := by
    intro h
    subst h
    simp at hl
  have hlast : l.getLast hne = lst := by
    rw [List.getLast?_eq_getLast l hne] at hl
    exact Option.some_injective _ hl
  have hsplit : l.dropLast ++ [lst] = l := by
    rw [← hlast]
    exact List.dropLast_concat_getLast hne
  have hnd2 : (l.dropLast ++ [lst]).Nodup := by
    rw [hsplit]
    exact hnd
  rcases List.nodup_append.mp hnd2 with ⟨-, -, hdisj⟩
  have hnotin : lst ∉ l.dropLast := fun hmem => hdisj hmem (by simp)
  ext a
  simp only [List.mem_toFinset, Finset.mem_erase]
  constructor
  · intro ha
    refine ⟨?_, ?_⟩
    · rintro rfl
      exact hnotin ha
    · rw [← hsplit]
      exact List.mem_append_left _ ha
  · rintro ⟨hne2, hmem⟩
    rw [← hsplit] at hmem
    rcases List.mem_append.mp hmem with h | h
    · exact h
    · simp only [List.mem_singleton] at h
      exact absurd h hne2

/-- C3: on a non-terminal tick whose new head is neither the food nor a
collision, `Update` keeps the snake length, and the set of occupied cells
afterwards is the previous set with the new head inserted and the old tail
cell removed. -/
theorem update_plain_move (cfg : GameConfig) (s : GameState)
    (hd lst : Point) (tl draws : List Point)
    (hgo : s.gameOver = false) (hsnake : s.snake = hd :: tl)
    (hnd : s.snake.Nodup) (hlast : s.snake.getLast? = some lst)
    (hnc : checkCollision cfg s.snake (nextHead s.direction hd) = false)
    (hfood : nextHead s.direction hd ≠ s.food) :
    ∃ t, update cfg s draws = some t ∧ t.snake.length = s.snake.length ∧
      t.snake.toFinset =
        insert (nextHead s.direction hd) (s.snake.toFinset.erase lst) := by
  have hkey := dropLast_toFinset_eq s.snake lst hnd hlast
  have hcons : (nextHead s.direction hd :: s.snake).dropLast =
      nextHead s.direction hd :: s.snake.dropLast := by
    apply List.dropLast_cons_of_ne_nil
    rw [hsnake]
    exact List.cons_ne_nil hd tl
  refine ⟨{ s with snake := (nextHead s.direction hd :: s.snake).dropLast },
    ?_, ?_, ?_⟩
  · unfold update
    rw [hgo]
    simp only [Bool.false_eq_true, if_false]
    rw [hsnake]
    rw [hsnake] at hnc
    simp [hnc, hfood]
  · simp only [hcons, hsnake, List.length_cons, List.length_dropLast]
    simp
  · simp only [hcons, List.toFinset_cons, hkey]

/-- Witness for C3 at a concrete plain move. -/
theorem update_plain_move_witness :
    ∃ t, update ⟨20, 10, 10⟩
        ⟨[⟨5, 5⟩, ⟨4, 5⟩], ⟨0, 0⟩, 0, false, .right⟩ [] = some t ∧
      t.snake.length = [(⟨5, 5⟩ : Point), ⟨4, 5⟩].length ∧
      t.snake.toFinset =
        insert (nextHead .right ⟨5, 5⟩)
          (([(⟨5, 5⟩ : Point), ⟨4, 5⟩]).toFinset.erase ⟨4, 5⟩) :=
  update_plain_move ⟨20, 10, 10⟩ ⟨[⟨5, 5⟩, ⟨4, 5⟩], ⟨0, 0⟩, 0, false, .right⟩
    ⟨5, 5⟩ ⟨4, 5⟩ [⟨4, 5⟩] [] rfl rfl (by decide) (by decide) (by decide)
    (by decide)

lemma setDirection_fields (s : GameState) (d : Direction) :
    (setDirection s d).snake = s.snake ∧ (setDirection s d).food = s.food ∧
      (setDirection s d).score = s.score ∧
      (setDirection s d).gameOver = s.gameOver := by
  cases d <;> simp only [setDirection] <;> split <;> simp

/-- C6 counterexample: a terminal `internal/game` session still accepts a
direction change, so `SetDirection` is not a no-op on terminal states. -/
theorem setDirection_terminal_changes :
    setDirection ⟨[⟨0, 0⟩], ⟨1, 1⟩, 0, true, .right⟩ .up ≠
      ⟨[⟨0, 0⟩], ⟨1, 1⟩, 0, true, .right⟩ ∧
    (⟨[⟨0, 0⟩], ⟨1, 1⟩, 0, true, .right⟩ : GameState).gameOver = true := by
  decide

/-- C6 (amended): on a terminal session the `main`-package `handleDirection`
is a complete no-op, while `internal/game`'s `SetDirection` leaves snake,
food, score and the terminal flag unchanged but may still change the
committed direction. -/
theorem terminal_direction_effects :
    (∀ (s : SState) (d : String), s.gameOver = true →
      handleDirection s d = s) ∧
    (∀ (s : GameState) (d : Direction), s.gameOver = true →
      (setDirection s d).snake = s.snake ∧ (setDirection s d).food = s.food ∧
        (setDirection s d).score = s.score ∧
        (setDirection s d).gameOver = true) := by
  constructor
  · intro s d hgo
    unfold handleDirection
    rw [hgo]
    simp
  · intro s d hgo
    obtain ⟨h1, h2, h3, h4⟩ := setDirection_fields s d
    exact ⟨h1, h2, h3, h4.trans hgo⟩

/-- Witness for C6 (amended) on concrete terminal sessions. -/
theorem terminal_direction_effects_witness :
    handleDirection ⟨[⟨0, 0⟩], ⟨1, 1⟩, 0, true, "RIGHT"⟩ "UP" =
      ⟨[⟨0, 0⟩], ⟨1, 1⟩, 0, true, "RIGHT"⟩ ∧
    ((setDirection ⟨[⟨0, 0⟩], ⟨1, 1⟩, 0, true, .right⟩ .up).snake = [⟨0, 0⟩] ∧
      (setDirection ⟨[⟨0, 0⟩], ⟨1, 1⟩, 0, true, .right⟩ .up).food = ⟨1, 1⟩ ∧
      (setDirection ⟨[⟨0, 0⟩], ⟨1, 1⟩, 0, true, .right⟩ .up).score = 0 ∧
      (setDirection ⟨[⟨0, 0⟩], ⟨1, 1⟩, 0, true, .right⟩ .up).gameOver = true) :=
  ⟨terminal_direction_effects.1 ⟨[⟨0, 0⟩], ⟨1, 1⟩, 0, true, "RIGHT"⟩ "UP" rfl,
    terminal_direction_effects.2 ⟨[⟨0, 0⟩], ⟨1, 1⟩, 0, true, .right⟩ .up rfl⟩

/-- C7 counterexample: requesting the direction already committed also has
no effect on a non-terminal session, although it is not the opposite of the
committed direction; the claimed equivalence fails in the only-if
direction. -/
theorem setDirection_same_noop :
    setDirection ⟨[⟨0, 0⟩], ⟨1, 1⟩, 0, false, .right⟩ .right =
      ⟨[⟨0, 0⟩], ⟨1, 1⟩, 0, false, .right⟩ ∧
    Direction.right ≠ Direction.opposite .right ∧
    (⟨[⟨0, 0⟩], ⟨1, 1⟩, 0, false, .right⟩ : GameState).gameOver = false := by
  decide

/-- C7 (amended): on a non-terminal session, `SetDirection d` has no effect
if and only if `d` is the committed direction itself or its exact
opposite. -/
theorem setDirection_noop_iff (s : GameState) (d : Direction)
    (hgo : s.gameOver = false) :
    setDirection s d = s ↔ d = s.direction ∨ d = s.direction.opposite := by
  obtain ⟨sn, fd, sc, go, dr⟩ := s
  cases d <;> cases dr <;> simp [setDirection, Direction.opposite]

/-- Witness for C7 (amended) at a concrete perpendicular turn. -/
theorem setDirection_noop_iff_witness :
    (setDirection ⟨[⟨0, 0⟩], ⟨1, 1⟩, 0, false, .right⟩ .left =
        ⟨[⟨0, 0⟩], ⟨1, 1⟩, 0, false, .right⟩) ↔
      (Direction.left = .right ∨
        Direction.left = Direction.opposite .right) :=
  setDirection_noop_iff ⟨[⟨0, 0⟩], ⟨1, 1⟩, 0, false, .right⟩ .left rfl

/-- C4 counterexample: two direction changes between ticks let a tick run
with the exact opposite of the previous tick's movement direction. The
first tick moves RIGHT; `SetDirection UP` then `SetDirection LEFT` are both
accepted, and the next tick moves LEFT. -/
theorem double_turn_reversal :
    update ⟨20, 10, 10⟩ ⟨[⟨10, 10⟩], ⟨0, 0⟩, 0, false, .right⟩ [] =
      some ⟨[⟨11, 10⟩], ⟨0, 0⟩, 0, false, .right⟩ ∧
    (setDirection (setDirection ⟨[⟨11, 10⟩], ⟨0, 0⟩, 0, false, .right⟩ .up)
        .left).direction = Direction.opposite .right ∧
    update ⟨20, 10, 10⟩
        (setDirection (setDirection ⟨[⟨11, 10⟩], ⟨0, 0⟩, 0, false, .right⟩ .up)
          .left) [] =
      some ⟨[⟨10, 10⟩], ⟨0, 0⟩, 0, false, .left⟩ := by
  decide

/-- C4 (amended): a single `SetDirection` call never commits the opposite
of the direction committed just before the call; the claimed invariant over
whole tick histories holds only when at most one direction change occurs
between consecutive ticks. -/
theorem setDirection_no_reverse (s : GameState) (d : Direction) :
    (setDirection s d).direction ≠ Direction.opposite s.direction := by
  cases d <;> cases hdr : s.direction <;>
    simp [setDirection, Direction.opposite, hdr]

lemma update_preserves_invariant (cfg : GameConfig) (s t : GameState)
    (draws : List Point) (h : update cfg s draws = some t)
    (hne : s.snake ≠ []) (hnd : s.snake.Nodup) (hsc : 0 ≤ s.score) :
    t.snake ≠ [] ∧ t.snake.Nodup ∧ 0 ≤ t.score := by
  obtain ⟨sn, fd, sc, go, dr⟩ := s
  simp only at hne hnd hsc
  cases go with
  | true =>
    simp only [update, if_pos] at h
    injection h with h
    subst h
    exact ⟨hne, hnd, hsc⟩
  | false =>
    cases sn with
    | nil => exact absurd rfl hne
    | cons hd tl =>
      simp only [update, Bool.false_eq_true, if_false] at h
      split at h
      · injection h with h
        subst h
        exact ⟨hne, hnd, hsc⟩
      · rename_i hcol
        have hnotmem : nextHead dr hd ∉ hd :: tl :=
          checkCollision_eq_false_not_mem cfg (hd :: tl) _
            (Bool.not_eq_true _ ▸ hcol)
        split at h
        · cases hgen : genFood (nextHead dr hd :: hd :: tl) draws with
          | none =>
            rw [hgen] at h
            cases h
          | some f =>
            rw [hgen] at h
            injection h with h
            subst h
            exact ⟨List.cons_ne_nil _ _, List.Nodup.cons hnotmem hnd,
              show (0 : Int) ≤ sc + 1 by omega⟩
        · injection h with h
          subst h
          have hcons : (nextHead dr hd :: hd :: tl).dropLast =
              nextHead dr hd :: (hd :: tl).dropLast :=
            List.dropLast_cons_of_ne_nil (List.cons_ne_nil hd tl)
          refine ⟨?_, ?_, hsc⟩
          · simp only [hcons]
            exact List.cons_ne_nil _ _
          · simp only [hcons]
            refine List.Nodup.cons ?_ (List.Nodup.sublist (List.dropLast_sublist _) hnd)
            intro hmem
            exact hnotmem ((List.dropLast_sublist (hd :: tl)).mem hmem)

/-- C8: every session state reachable in `internal/game` from creation by
any interleaving of ticks, direction changes and resets has a snake of
length at least one with no duplicate coordinates, and a non-negative
score. -/
theorem reach_invariant (cfg : GameConfig) (s : GameState)
    (h : Reach cfg s) : s.snake ≠ [] ∧ s.snake.Nodup ∧ 0 ≤ s.score := by
  induction h with
  | init draws t hnew =>
    unfold newGame at hnew
    cases hgen : genFood [⟨cfg.initialX, cfg.initialY⟩] draws with
    | none =>
      rw [hgen] at hnew
      cases hnew
    | some f =>
      rw [hgen] at hnew
      injection hnew with hnew
      subst hnew
      simp
  | tick s t draws hr hup ih =>
    exact update_preserves_invariant cfg s t draws hup ih.1 ih.2.1 ih.2.2
  | dir s d hr ih =>
    obtain ⟨h1, -, h3, -⟩ := setDirection_fields s d
    rw [h1, h3]
    exact ih
  | reset s t draws hr hnew ih =>
    unfold newGame at hnew
    cases hgen : genFood [⟨cfg.initialX, cfg.initialY⟩] draws with
    | none =>
      rw [hgen] at hnew
      cases hnew
    | some f =>
      rw [hgen] at hnew
      injection hnew with hnew
      subst hnew
      simp

/-- Witness for C8 at a freshly created session. -/
theorem reach_invariant_witness :
    Reach ⟨20, 10, 10⟩ ⟨[⟨10, 10⟩], ⟨0, 0⟩, 0, false, .right⟩ ∧
      ((⟨[⟨10, 10⟩], ⟨0, 0⟩, 0, false, .right⟩ : GameState).snake ≠ [] ∧
        (⟨[⟨10, 10⟩], ⟨0, 0⟩, 0, false, .right⟩ : GameState).snake.Nodup ∧
        (0 : Int) ≤ (⟨[⟨10, 10⟩], ⟨0, 0⟩, 0, false, .right⟩ : GameState).score) := by
  have hreach : Reach ⟨20, 10, 10⟩ ⟨[⟨10, 10⟩], ⟨0, 0⟩, 0, false, .right⟩ :=
    Reach.init [⟨0, 0⟩] _ (by decide)
  exact ⟨hreach, reach_invariant ⟨20, 10, 10⟩ _ hreach⟩

/-- The four cells of a fully occupied 2 x 2 grid. -/
def fullSnake2 : List Point := [⟨0, 0⟩, ⟨0, 1⟩, ⟨1, 0⟩, ⟨1, 1⟩]

/-- C5: with every cell of the grid occupied, the rejection-sampling loop
of `generateFood` in `internal/game` rejects every draw `rand.Intn` can
produce and never exits; it neither reports exhaustion nor marks the
session terminal. -/
theorem genFood_full_grid_none (draws : List Point)
    (hin : ∀ p ∈ draws, (0 ≤ p.x ∧ p.x < 2) ∧ 0 ≤ p.y ∧ p.y < 2) :
    genFood fullSnake2 draws = none := by
  induction draws with
  | nil => rfl
  | cons d rest ih =>
    have hdb := hin d (List.mem_cons_self d rest)
    have hmem : d ∈ fullSnake2 := by
      obtain ⟨dx, dy⟩ := d
      obtain ⟨⟨hx0, hx2⟩, hy0, hy2⟩ := hdb
      simp only at hx0 hx2 hy0 hy2
      have hx : dx = 0 ∨ dx = 1 := by omega
      have hy : dy = 0 ∨ dy = 1 := by omega
      rcases hx with rfl | rfl <;> rcases hy with rfl | rfl <;> decide
    rw [genFood, if_pos (List.mem_map_of_mem pointKey hmem)]
    exact ih fun p hp => hin p (List.mem_cons_of_mem d hp)

/-- Witness for C5 on a concrete rejected draw stream. -/
theorem genFood_full_grid_none_witness :
    (∀ p ∈ [(⟨0, 0⟩ : Point), ⟨1, 1⟩],
      (0 ≤ p.x ∧ p.x < 2) ∧ 0 ≤ p.y ∧ p.y < 2) ∧
    genFood fullSnake2 [⟨0, 0⟩, ⟨1, 1⟩] = none :=
  ⟨by decide, genFood_full_grid_none [⟨0, 0⟩, ⟨1, 1⟩] (by decide)⟩

lemma utf8Bytes_cases (a : Nat) (ha : a < 0xD800) :
    (a < 0x80 ∧ utf8Bytes a = [a]) ∨
    (0x80 ≤ a ∧ a < 0x800 ∧
      utf8Bytes a = [0xC0 + a / 0x40, 0x80 + a % 0x40]) ∨
    (0x800 ≤ a ∧ utf8Bytes a =
      [0xE0 + a / 0x1000, 0x80 + a / 0x40 % 0x40, 0x80 + a % 0x40]) := by
  unfold utf8Bytes
  split_ifs with h1 h2 h3
  · exact Or.inl ⟨h1, rfl⟩
  · exact Or.inr (Or.inl ⟨by omega, h2, rfl⟩)
  · exact Or.inr (Or.inr ⟨by omega, rfl⟩)
  · omega

lemma utf8Bytes_inj (a b : Nat) (ha : a < 0xD800) (hb : b < 0xD800)
    (h : utf8Bytes a = utf8Bytes b) : a = b := by
  rcases utf8Bytes_cases a ha with ⟨h1, e1⟩ | ⟨h1, h2, e1⟩ | ⟨h1, e1⟩ <;>
    rcases utf8Bytes_cases b hb with ⟨g1, e2⟩ | ⟨g1, g2, e2⟩ | ⟨g1, e2⟩ <;>
      rw [e1, e2] at h <;> simp only [List.cons.injEq, and_true] at h <;>
        omega

lemma keyBytes_inj (a b c d : Nat) (ha : a < 0xD800) (hb : b < 0xD800)
    (hc : c < 0xD800) (hd : d < 0xD800)
    (h : utf8Bytes a ++ 44 :: utf8Bytes b = utf8Bytes c ++ 44 :: utf8Bytes d) :
    a = c ∧ b = d := by
  rcases utf8Bytes_cases a ha with ⟨h1, e1⟩ | ⟨h1, h2, e1⟩ | ⟨h1, e1⟩ <;>
    rcases utf8Bytes_cases c hc with ⟨g1, e2⟩ | ⟨g1, g2, e2⟩ | ⟨g1, e2⟩ <;>
      rw [e1, e2] at h <;>
      simp only [List.cons_append, List.nil_append, List.cons.injEq] at h
  · exact ⟨h.1, utf8Bytes_inj b d hb hd h.2.2⟩
  · obtain ⟨-, hB, -⟩ := h
    exact absurd hB (by omega)
  · obtain ⟨-, hB, -⟩ := h
    exact absurd hB (by omega)
  · obtain ⟨-, hB, -⟩ := h
    exact absurd hB (by omega)
  · obtain ⟨hA, hB, -, hD⟩ := h
    exact ⟨by omega, utf8Bytes_inj b d hb hd hD⟩
  · obtain ⟨hA, -⟩ := h
    exact absurd hA (by omega)
  · obtain ⟨-, hB, -⟩ := h
    exact absurd hB (by omega)
  · obtain ⟨hA, -⟩ := h
    exact absurd hA (by omega)
  · obtain ⟨hA, hB, hC, -, hE⟩ := h
    exact ⟨by omega, utf8Bytes_inj b d hb hd hE⟩

lemma goStringOfInt_valid (v : Int) (h0 : 0 ≤ v) (h1 : v < 0xD800) :
    goStringOfInt v = utf8Bytes v.toNat := by
  unfold goStringOfInt
  rw [if_pos (Or.inl ⟨h0, h1⟩)]

/-- C10: `pointKey` (rune conversion of each component joined by a comma)
never collides on distinct points whose components lie in `[0, gridSize)`,
for any grid size up to 0xD800 — in particular for the configured grid of
20 — so the occupancy map keyed by it faithfully represents the snake. -/
theorem pointKey_inj (g : Int) (p q : Point) (hg : g ≤ 0xD800)
    (hp : 0 ≤ p.x ∧ p.x < g ∧ 0 ≤ p.y ∧ p.y < g)
    (hq : 0 ≤ q.x ∧ q.x < g ∧ 0 ≤ q.y ∧ q.y < g)
    (hkey : pointKey p = pointKey q) : p = q := by
  obtain ⟨hpx0, hpxg, hpy0, hpyg⟩ := hp
  obtain ⟨hqx0, hqxg, hqy0, hqyg⟩ := hq
  unfold pointKey at hkey
  rw [goStringOfInt_valid p.x hpx0 (by omega),
    goStringOfInt_valid p.y hpy0 (by omega),
    goStringOfInt_valid q.x hqx0 (by omega),
    goStringOfInt_valid q.y hqy0 (by omega)] at hkey
  obtain ⟨hx, hy⟩ := keyBytes_inj p.x.toNat p.y.toNat q.x.toNat q.y.toNat
    (by omega) (by omega) (by omega) (by omega) hkey
  obtain ⟨px, py⟩ := p
  obtain ⟨qx, qy⟩ := q
  simp only at hx hy hpx0 hpy0 hqx0 hqy0
  have : px = qx ∧ py = qy := by omega
  rw [this.1, this.2]

/-- Witness for C10 at a concrete in-grid point. -/
theorem pointKey_inj_witness :
    ((⟨3, 4⟩ : Point) : Point) = ⟨3, 4⟩ :=
  pointKey_inj 20 ⟨3, 4⟩ ⟨3, 4⟩ (by decide) (by decide) (by decide) rfl

lemma take_cons_take (m : Nat) (x : ScoreEntry) (xs : List ScoreEntry) :
    (x :: xs.take m).take m = (x :: xs).take m := by
  cases m with
  | zero => rfl
  | succ k =>
    simp only [List.take_succ_cons, List.cons.injEq, true_and, List.take_take]
    rw [Nat.min_eq_left (by omega)]

lemma orderedInsert_take_comm (e : ScoreEntry) :
    ∀ (n : Nat) (l : List ScoreEntry),
      ((l.take n).orderedInsert scoreGE e).take n =
        (l.orderedInsert scoreGE e).take n := by
  intro n l
  induction l generalizing n with
  | nil => simp
  | cons x xs ih =>
    cases n with
    | zero => rfl
    | succ m =>
      rw [List.take_succ_cons]
      by_cases hle : scoreGE e x
      · simp only [List.orderedInsert, if_pos hle, List.take_succ_cons,
          List.cons.injEq, true_and]
        exact take_cons_take m x xs
      · simp only [List.orderedInsert, if_neg hle, List.take_succ_cons,
          List.cons.injEq, true_and]
        exact ih m

lemma foldl_addScore_take (l : List ScoreEntry) :
    ∀ S : List ScoreEntry,
      l.foldl addScore (S.take MAX_ENTRIES) =
        (l.foldl (fun acc e => acc.orderedInsert scoreGE e) S).take
          MAX_ENTRIES := by
  induction l with
  | nil => intro S; rfl
  | cons e rest ih =>
    intro S
    rw [List.foldl_cons, List.foldl_cons]
    have he : addScore (S.take MAX_ENTRIES) e =
        (S.orderedInsert scoreGE e).take MAX_ENTRIES := by
      unfold addScore
      exact orderedInsert_take_comm e MAX_ENTRIES S
    rw [he]
    exact ih (S.orderedInsert scoreGE e)

lemma foldl_addScore_eq (entries : List ScoreEntry) :
    entries.foldl addScore [] = (sortAllScores entries).take MAX_ENTRIES := by
  have h0 : ([] : List ScoreEntry) = ([] : List ScoreEntry).take MAX_ENTRIES :=
    rfl
  rw [h0, foldl_addScore_take]
  rfl

lemma sortAllScores_sorted (l : List ScoreEntry) :
    List.Sorted scoreGE (sortAllScores l) := by
  suffices h : ∀ acc, List.Sorted scoreGE acc →
      List.Sorted scoreGE
        (l.foldl (fun acc e => acc.orderedInsert scoreGE e) acc) from
    h [] List.sorted_nil
  induction l with
  | nil => exact fun acc h => h
  | cons e rest ih =>
    intro acc hacc
    rw [List.foldl_cons]
    exact ih _ (List.Sorted.orderedInsert e acc hacc)

lemma sortAllScores_perm (l : List ScoreEntry) :
    List.Perm (sortAllScores l) l := by
  suffices h : ∀ acc,
      List.Perm (l.foldl (fun acc e => acc.orderedInsert scoreGE e) acc)
        (acc ++ l) by
    simpa using h []
  induction l with
  | nil => intro acc; simp
  | cons e rest ih =>
    intro acc
    rw [List.foldl_cons]
    refine (ih _).trans ?_
    have h1 : List.Perm (List.orderedInsert scoreGE e acc) (e :: acc) :=
      List.perm_orderedInsert scoreGE e acc
    refine List.Perm.trans (h1.append_right rest) ?_
    exact List.perm_middle.symm

/-- C9: submitting 11 scores to the empty store leaves exactly 10 rows;
those rows come from the submissions, every submission not retained scores
no higher than every retained row, and `GetScores` returns exactly the
retained rows ordered by descending score. -/
theorem leaderboard_top10 (entries : List ScoreEntry)
    (hlen : entries.length = 11) :
    (entries.foldl addScore []).length = 10 ∧
    List.Subperm (entries.foldl addScore []) entries ∧
    (∀ a ∈ entries, a ∉ entries.foldl addScore [] →
      ∀ b ∈ entries.foldl addScore [], a.score ≤ b.score) ∧
    List.Sorted scoreGE (getScores (entries.foldl addScore [])) ∧
    List.Perm (getScores (entries.foldl addScore []))
      (entries.foldl addScore []) := by
  have hF := foldl_addScore_eq entries
  have hperm := sortAllScores_perm entries
  have hsorted := sortAllScores_sorted entries
  have hSlen : (sortAllScores entries).length = 11 := by
    rw [hperm.length_eq, hlen]
  have hFlen : (entries.foldl addScore []).length = 10 := by
    rw [hF, List.length_take, hSlen]
    decide
  refine ⟨hFlen, ?_, ?_, ?_, ?_⟩
  · rw [hF]
    exact ((List.take_sublist MAX_ENTRIES _).subperm).trans hperm.subperm
  · intro a ha hnota b hb
    have haS : a ∈ sortAllScores entries := hperm.mem_iff.mpr ha
    have hsplit : (sortAllScores entries).take MAX_ENTRIES ++
        (sortAllScores entries).drop MAX_ENTRIES = sortAllScores entries :=
      List.take_append_drop MAX_ENTRIES _
    have hdrop : a ∈ (sortAllScores entries).drop MAX_ENTRIES := by
      rw [← hsplit] at haS
      rcases List.mem_append.mp haS with h | h
      · rw [hF] at hnota
        exact absurd h hnota
      · exact h
    have hpw := hsorted
    rw [← hsplit] at hpw
    have := (List.pairwise_append.mp hpw).2.2
    rw [hF] at hb
    exact this b hb a hdrop
  · unfold getScores
    refine List.Pairwise.sublist (List.take_sublist _ _) ?_
    exact List.sorted_insertionSort scoreGE _
  · unfold getScores
    have hlen2 : (List.insertionSort scoreGE
        (entries.foldl addScore [])).length ≤ MAX_ENTRIES := by
      rw [(List.perm_insertionSort scoreGE _).length_eq, hFlen]
      decide
    rw [List.take_of_length_le hlen2]
    exact List.perm_insertionSort scoreGE _

/-- Payload of eleven score submissions used as the C9 witness. -/
def elevenScores : List ScoreEntry :=
  [⟨"p", 0, 0⟩, ⟨"p", 1, 0⟩, ⟨"p", 2, 0⟩, ⟨"p", 3, 0⟩, ⟨"p", 4, 0⟩,
    ⟨"p", 5, 0⟩, ⟨"p", 6, 0⟩, ⟨"p", 7, 0⟩, ⟨"p", 8, 0⟩, ⟨"p", 9, 0⟩,
    ⟨"p", 10, 0⟩]

/-- Witness for C9 on a concrete run of eleven submissions. -/
theorem leaderboard_top10_witness :
    (elevenScores.foldl addScore []).length = 10 ∧
    List.Subperm (elevenScores.foldl addScore []) elevenScores ∧
    (∀ a ∈ elevenScores, a ∉ elevenScores.foldl addScore [] →
      ∀ b ∈ elevenScores.foldl addScore [], a.score ≤ b.score) ∧
    List.Sorted scoreGE (getScores (elevenScores.foldl addScore [])) ∧
    List.Perm (getScores (elevenScores.foldl addScore []))
      (elevenScores.foldl addScore []) :=
  leaderboard_top10 elevenScores rfl

end Snake
